import Mathlib

/-!
Formal model of the SimCLR training module (src/SimCLR_LOCAL_1051.py):
the NT-Xent contrastive loss, the embedding synchronizer (SyncFunction),
the optimizer and learning-rate-schedule configuration, and the epoch
loss accumulator.

Embedding batches are modelled as lists of rows, each row a list of
reals; PyTorch float tensors are modelled over ℝ.  Line numbers in the
doc comments refer to src/SimCLR_LOCAL_1051.py.
-/

namespace SimCLRModel

/-- Dot product of two rows: elementwise product followed by a sum
(torch.sum(a * b, dim=-1) restricted to one row pair). -/
def dot (u v : List ℝ) : ℝ := (List.zipWith (fun a b => a * b) u v).sum

/-- One entry of the exponentiated similarity matrix:
sim[i][j] = exp(cov[i][j] / temperature) with cov = out · out_distᵗ
(lines 172-173). -/
noncomputable def simEntry (τ : ℝ) (u v : List ℝ) : ℝ := Real.exp (dot u v / τ)

/-- Row sum of the exponentiated similarity matrix, i.e. neg = sim.sum(dim=-1)
before the subtraction (line 174). -/
noncomputable def rowSum (τ : ℝ) (u : List ℝ) (outDist : List (List ℝ)) : ℝ :=
  (outDist.map (fun v => simEntry τ u v)).sum

/-- The constant subtracted from every row: math.e ** (1 / temperature)
(line 177). -/
noncomputable def row_sub (τ : ℝ) : ℝ := Real.exp 1 ^ (1 / τ)

/-- neg = torch.clamp(sim.sum(dim=-1) - row_sub, min=eps) (lines 174-178):
one entry per row of out = out_1 ++ out_2, the row sum taken against the
(possibly gathered) pool out_dist. -/
noncomputable def negList (out outDist : List (List ℝ)) (τ ε : ℝ) : List ℝ :=
  out.map (fun u => max (rowSum τ u outDist - row_sub τ) ε)

/-- pos = exp(sum(out_1 * out_2, dim=-1) / temperature) concatenated with
itself (lines 181-182). -/
noncomputable def posList (out_1 out_2 : List (List ℝ)) (τ : ℝ) : List ℝ :=
  List.zipWith (fun u v => Real.exp (dot u v / τ)) out_1 out_2 ++
    List.zipWith (fun u v => Real.exp (dot u v / τ)) out_1 out_2

/-- The elementwise ratio pos / (neg + eps) appearing inside the log
(line 184). -/
noncomputable def ratioList (out_1 out_2 out_1_dist out_2_dist : List (List ℝ))
    (τ ε : ℝ) : List ℝ :=
  List.zipWith (fun p n => p / (n + ε)) (posList out_1 out_2 τ)
    (negList (out_1 ++ out_2) (out_1_dist ++ out_2_dist) τ ε)

/-- loss = -torch.log(pos / (neg + eps)).mean() (line 184), computed from the
local batches out_1, out_2 and the gathered pools out_1_dist, out_2_dist
(lines 167-174). -/
noncomputable def nt_xent_loss_dist (out_1 out_2 out_1_dist out_2_dist : List (List ℝ))
    (τ ε : ℝ) : ℝ :=
  -(((ratioList out_1 out_2 out_1_dist out_2_dist τ ε).map Real.log).sum /
      ((ratioList out_1 out_2 out_1_dist out_2_dist τ ε).map Real.log).length)

/-- The default eps = 1e-6 of nt_xent_loss (line 149). -/
noncomputable def defaultEps : ℝ := 1 / 1000000

/-- SimCLR.nt_xent_loss in the non-distributed branch (lines 158-163):
out_1_dist = out_1 and out_2_dist = out_2. -/
noncomputable def nt_xent_loss (out_1 out_2 : List (List ℝ)) (τ ε : ℝ) : ℝ :=
  nt_xent_loss_dist out_1 out_2 out_1 out_2 τ ε

/-- SyncFunction.forward (lines 22-31): all_gather fills a list with every
rank's tensor in rank order; the result is their row-wise concatenation. -/
def syncFunctionForward (gathered : List (List (List ℝ))) : List (List ℝ) :=
  gathered.flatten

/-- Elementwise sum of two equal-shaped 2-D tensors. -/
def tensorAdd (a b : List (List ℝ)) : List (List ℝ) :=
  List.zipWith (List.zipWith (fun x y => x + y)) a b

/-- torch.distributed.all_reduce with ReduceOp.SUM (line 36): the elementwise
sum of all ranks' gradient tensors. -/
def allReduceSum : List (List (List ℝ)) → List (List ℝ)
  | [] => []
  | g :: gs => gs.foldl tensorAdd g

/-- SyncFunction.backward (lines 33-40): sum-reduce the per-rank gradients of
the gathered tensor, then slice out rows
[rank * batchSize, (rank + 1) * batchSize). -/
def syncFunctionBackward (rank batchSize : ℕ) (grads : List (List (List ℝ))) :
    List (List ℝ) :=
  ((allReduceSum grads).drop (rank * batchSize)).take batchSize

/-- The configuration state stored by SimCLR.__init__ that the verified
operations consult, plus the train_loss accumulator. -/
structure SimCLRState where
  num_samples : ℕ
  batch_size : ℕ
  gpus : ℕ
  num_nodes : ℕ
  warmup_epochs : ℕ
  max_epochs : ℕ
  temperature : ℝ
  exclude_bn_bias : Bool
  weight_decay : ℝ
  train_iters_per_epoch : ℕ
  train_loss : List ℝ

/-- SimCLR.__init__ (lines 63-131): stores the configuration unchanged and
computes train_iters_per_epoch = num_samples // global_batch_size with
global_batch_size = num_nodes * gpus * batch_size when gpus > 0, else
batch_size (lines 130-131).  No argument is validated; construction always
succeeds. -/
def init (num_samples batch_size gpus num_nodes warmup_epochs max_epochs : ℕ)
    (temperature weight_decay : ℝ) (exclude_bn_bias : Bool) : SimCLRState :=
  { num_samples := num_samples
    batch_size := batch_size
    gpus := gpus
    num_nodes := num_nodes
    warmup_epochs := warmup_epochs
    max_epochs := max_epochs
    temperature := temperature
    exclude_bn_bias := exclude_bn_bias
    weight_decay := weight_decay
    train_iters_per_epoch :=
      num_samples / (if 0 < gpus then num_nodes * gpus * batch_size else batch_size)
    train_loss := [] }

/-- SimCLR.shared_step, loss part (lines 188-206): the two views' projected
embeddings features_1, features_2 are fed to nt_xent_loss with the literal
temperature 0.5 and the default eps; the stored self.temperature field is
never consulted. -/
noncomputable def shared_step (_s : SimCLRState) (features_1 features_2 : List (List ℝ)) :
    ℝ :=
  nt_xent_loss features_1 features_2 (0.5 : ℝ) defaultEps

/-- SimCLR.training_step (lines 208-215), accumulator part: appends the step
loss to self.train_loss. -/
def training_step_accumulate (s : SimCLRState) (loss : ℝ) : SimCLRState :=
  { s with train_loss := s.train_loss ++ [loss] }

/-- SimCLR.on_train_epoch_end (lines 223-231): computes
avg = sum(train_loss) / len(train_loss) -- a ZeroDivisionError, modelled as
none, when the accumulator is empty -- then logs avg and resets the
accumulator to the empty list.  Returns the logged value and the new state. -/
noncomputable def on_train_epoch_end (s : SimCLRState) : Option (ℝ × SimCLRState) :=
  if s.train_loss.length = 0 then none
  else some (s.train_loss.sum / s.train_loss.length, { s with train_loss := [] })

/-- A named trainable parameter: its dotted name and an identifier standing
for the underlying tensor. -/
abbrev NamedParam : Type := String × ℕ

/-- One optimizer parameter group: a list of parameters and the weight-decay
coefficient applied to them. -/
structure ParamGroup where
  params : List NamedParam
  weight_decay : ℝ

/-- Name-substring test used by the weight-decay exclusion heuristic. -/
def nameHasPart (pat : String) (name : String) : Bool :=
  decide (List.IsInfix pat.toList name.toList)

/-- Whether a parameter name indicates a normalization layer or a bias term
(name-substring heuristics on "bn" and "bias"). -/
def isNormOrBias (p : NamedParam) : Bool :=
  nameHasPart "bn" p.1 || nameHasPart "bias" p.1

/-- Modelled from the spec: SimCLR.exclude_from_wt_decay is invoked at line
235 of the source but its body is absent from the provided source file; per
spec sections 4.4, 8 and 9, the named trainable parameters are split into two
groups by a name-substring normalization/bias heuristic, the matching
parameters receiving weight-decay 0.0 and all others the configured
coefficient. -/
def exclude_from_wt_decay (named_params : List NamedParam) (weight_decay : ℝ) :
    List ParamGroup :=
  let split := named_params.partition isNormOrBias
  [{ params := split.2, weight_decay := weight_decay },
    { params := split.1, weight_decay := 0 }]

/-- SimCLR.configure_optimizers, parameter-group part (lines 233-237): when
exclude_bn_bias is set the groups come from exclude_from_wt_decay, otherwise
all parameters form one group with the configured weight decay. -/
def configure_optimizers_params (s : SimCLRState) (named_params : List NamedParam) :
    List ParamGroup :=
  if s.exclude_bn_bias then exclude_from_wt_decay named_params s.weight_decay
  else [{ params := named_params, weight_decay := s.weight_decay }]

/-- The scheduler dictionary built by configure_optimizers (lines 251-261):
the warmup/total step counts handed to linear_warmup_decay together with the
interval and frequency keys. -/
structure LRScheduleConfig where
  warmup_steps : ℕ
  total_steps : ℕ
  interval : String
  frequency : ℕ

/-- SimCLR.configure_optimizers, scheduler part (lines 251-261):
warmup_steps = train_iters_per_epoch * warmup_epochs,
total_steps = train_iters_per_epoch * max_epochs, consulted with
interval "step" and frequency 1. -/
def configure_optimizers_schedule (s : SimCLRState) : LRScheduleConfig :=
  { warmup_steps := s.train_iters_per_epoch * s.warmup_epochs
    total_steps := s.train_iters_per_epoch * s.max_epochs
    interval := "step"
    frequency := 1 }

/-- A batch is row-normalized when every row has unit squared norm. -/
def rowNormalized (rows : List (List ℝ)) : Prop := ∀ r ∈ rows, dot r r = 1

/-- The loss exactly as claim C1 words it: the mean over all 2×batch rows of
-log(pos / (neg + ε)), where sim = exp((concat(out_1,out_2) ·
concat(out_1,out_2)ᵗ)/τ), neg[i] = clamp(row-sum(sim[i,:]) - e^(1/τ), min ε),
and pos is exp(dot(out_1[i], out_2[i])/τ) duplicated to align with the
2×batch row ordering. -/
noncomputable def nt_xent_claim (out_1 out_2 : List (List ℝ)) (τ ε : ℝ) : ℝ :=
  (∑ i ∈ Finset.range (2 * out_1.length),
      -Real.log
        (Real.exp (dot (out_1.getD (i % out_1.length) [])
              (out_2.getD (i % out_1.length) []) / τ) /
          (max ((∑ j ∈ Finset.range (2 * out_1.length),
                  Real.exp (dot ((out_1 ++ out_2).getD i [])
                      ((out_1 ++ out_2).getD j []) / τ)) -
                Real.exp (1 / τ)) ε + ε))) /
    (2 * out_1.length)

/-- Proof-internal view of the loss: the sum over the zipped batch of
per-pair exponentiated similarities against the whole pool. -/
noncomputable def pairExpSum (τ : ℝ) (x : List ℝ) (q : List (List ℝ × List ℝ)) : ℝ :=
  (q.map (fun pr => Real.exp (dot x pr.1 / τ) + Real.exp (dot x pr.2 / τ))).sum

/-- Proof-internal view of one clamped denominator entry. -/
noncomputable def pairNeg (τ ε : ℝ) (q : List (List ℝ × List ℝ)) (x : List ℝ) : ℝ :=
  max (pairExpSum τ x q - row_sub τ) ε

/-- Proof-internal view of the two log terms contributed by one sample pair. -/
noncomputable def pairTerm (τ ε : ℝ) (q : List (List ℝ × List ℝ))
    (pr : List ℝ × List ℝ) : ℝ :=
  Real.log (Real.exp (dot pr.1 pr.2 / τ) / (pairNeg τ ε q pr.1 + ε)) +
    Real.log (Real.exp (dot pr.1 pr.2 / τ) / (pairNeg τ ε q pr.2 + ε))

/-- Proof-internal view of the whole loss as a function of the zipped batch. -/
noncomputable def lossOfPairs (τ ε : ℝ) (q : List (List ℝ × List ℝ)) : ℝ :=
  -((q.map (pairTerm τ ε q)).sum / (2 * q.length))

/-- A concrete module state used by witnesses: default-like configuration with
one accumulated training-step loss. -/
def sampleState : SimCLRState :=
  training_step_accumulate (init 16 32 1 1 10 100 1 0 false) 3

/-- A concrete module state with the exclude_bn_bias flag enabled. -/
def sampleStateEx : SimCLRState := init 16 32 1 1 10 100 1 0 true

/-- A concrete list of named parameters used by witnesses. -/
def sampleParams : List NamedParam :=
  [ ("encoder.conv1.weight", 0), ("encoder.bn1.weight", 1),
    ("projection.model.0.bias", 2)]

/-- Decomposition of membership in a zipWith image. -/
theorem exists_of_mem_zipWith {α β γ : Type _} {f : α → β → γ} :
    ∀ {l₁ : List α} {l₂ : List β} {x : γ}, x ∈ List.zipWith f l₁ l₂ →
      ∃ a ∈ l₁, ∃ b ∈ l₂, x = f a b
  | [], _, _, hx => by simp at hx
  | _ :: _, [], _, hx => by simp at hx
  | a :: l₁, b :: l₂, x, hx => by
    rcases List.mem_cons.mp hx with h | h
    · exact ⟨a, List.mem_cons_self _ _, b, List.mem_cons_self _ _, h⟩
    · rcases exists_of_mem_zipWith h with ⟨a2, ha, b2, hb, hx2⟩
      exact ⟨a2, List.mem_cons_of_mem _ ha, b2, List.mem_cons_of_mem _ hb, hx2⟩

/-- A list sum written as a Finset.range sum of getD entries. -/
theorem sum_eq_range_getD (l : List ℝ) :
    l.sum = ∑ i ∈ Finset.range l.length, l.getD i 0 := by
  induction l with
  | nil => simp
  | cons a t ih =>
    rw [List.sum_cons, List.length_cons, Finset.sum_range_succ']
    simp only [List.getD_cons_succ, List.getD_cons_zero]
    rw [ih]
    ring

/-- A zipWith written as a map over the zipped list. -/
theorem zipWith_eq_zip_map {α β γ : Type _} (f : α → β → γ) :
    ∀ (l₁ : List α) (l₂ : List β),
      List.zipWith f l₁ l₂ = (l₁.zip l₂).map (fun pr => f pr.1 pr.2)
  | [], _ => by simp
  | _ :: _, [] => by simp
  | a :: l₁, b :: l₂ => by
    simp [List.zip_cons_cons, zipWith_eq_zip_map f l₁ l₂]

/-- getD of a zipWith at an index inside both lists. -/
theorem getD_zipWith {α β γ : Type _} (f : α → β → γ) (l₁ : List α) (l₂ : List β)
    (d₁ : α) (d₂ : β) (d₃ : γ) (n : ℕ) (h₁ : n < l₁.length) (h₂ : n < l₂.length) :
    (List.zipWith f l₁ l₂).getD n d₃ = f (l₁.getD n d₁) (l₂.getD n d₂) := by
  rw [List.getD_eq_getElem _ _ (by rw [List.length_zipWith]; omega),
    List.getD_eq_getElem _ _ h₁, List.getD_eq_getElem _ _ h₂, List.getElem_zipWith]

/-- getD of a mapped list at an in-range index, with default 0 on the image. -/
theorem getD_map_log (l : List ℝ) (n : ℕ) (h : n < l.length) :
    (l.map Real.log).getD n 0 = Real.log (l.getD n 0) := by
  rw [List.getD_eq_getElem _ _ (by simpa using h), List.getElem_map,
    List.getD_eq_getElem _ _ h]

/-- C1: in the non-distributed case, nt_xent_loss computes exactly the value
claim C1 describes: the mean over all 2×batch rows of -log(pos / (neg + ε))
with sim = exp((concat · concatᵗ)/τ), neg clamped row sums minus e^(1/τ), and
pos the duplicated positive similarities. -/
theorem nt_xent_matches_claim (o1 o2 : List (List ℝ)) (τ ε : ℝ)
    (h : o1.length = o2.length) :
    nt_xent_loss o1 o2 τ ε = nt_xent_claim o1 o2 τ ε := by
  have ho : (o1 ++ o2).length = 2 * o1.length := by
    rw [List.length_append, ← h]; omega
  have hA : (List.zipWith (fun u v => Real.exp (dot u v / τ)) o1 o2).length =
      o1.length := by
    rw [List.length_zipWith, ← h, Nat.min_self]
  have hPlen : (posList o1 o2 τ).length = 2 * o1.length := by
    rw [posList, List.length_append, hA]; omega
  have hNlen : (negList (o1 ++ o2) (o1 ++ o2) τ ε).length = 2 * o1.length := by
    rw [negList, List.length_map, ho]
  have hRlen : (ratioList o1 o2 o1 o2 τ ε).length = 2 * o1.length := by
    rw [ratioList, List.length_zipWith, hPlen, hNlen, Nat.min_self]
  have hRow : ∀ u : List ℝ, rowSum τ u (o1 ++ o2) =
      ∑ j ∈ Finset.range (2 * o1.length),
        Real.exp (dot u ((o1 ++ o2).getD j []) / τ) := by
    intro u
    rw [rowSum, sum_eq_range_getD, List.length_map, ho]
    refine Finset.sum_congr rfl ?_
    intro j hj
    have hj2 : j < (o1 ++ o2).length := by rw [ho]; exact Finset.mem_range.mp hj
    rw [List.getD_eq_getElem _ _ (by rw [List.length_map]; exact hj2),
      List.getElem_map, List.getD_eq_getElem _ _ hj2]
    rfl
  have hPos : ∀ i, i < 2 * o1.length →
      (posList o1 o2 τ).getD i 0 =
        Real.exp (dot (o1.getD (i % o1.length) [])
            (o2.getD (i % o1.length) []) / τ) := by
    intro i hi
    rw [posList]
    by_cases hlt : i < o1.length
    · rw [List.getD_append _ _ _ _ (by rw [hA]; exact hlt),
        getD_zipWith _ _ _ ([]) ([]) 0 i hlt (by rw [← h]; exact hlt),
        Nat.mod_eq_of_lt hlt]
    · have hge : o1.length ≤ i := Nat.le_of_not_lt hlt
      have him : i % o1.length = i - o1.length := by
        rw [Nat.mod_eq_sub_mod hge, Nat.mod_eq_of_lt (by omega)]
      rw [List.getD_append_right _ _ _ _ (by rw [hA]; exact hge), hA,
        getD_zipWith _ _ _ ([]) ([]) 0 (i - o1.length) (by omega)
          (by rw [← h]; omega),
        him]
  have hNeg : ∀ i, i < 2 * o1.length →
      (negList (o1 ++ o2) (o1 ++ o2) τ ε).getD i 0 =
        max ((∑ j ∈ Finset.range (2 * o1.length),
              Real.exp (dot ((o1 ++ o2).getD i [])
                  ((o1 ++ o2).getD j []) / τ)) -
            Real.exp (1 / τ)) ε := by
    intro i hi
    have hi2 : i < (o1 ++ o2).length := by rw [ho]; exact hi
    rw [negList,
      List.getD_eq_getElem _ _ (by rw [List.length_map]; exact hi2),
      List.getElem_map, hRow, row_sub, Real.exp_one_rpow,
      List.getD_eq_getElem _ _ hi2]
  have hRatio : ∀ i, i < 2 * o1.length →
      (ratioList o1 o2 o1 o2 τ ε).getD i 0 =
        (posList o1 o2 τ).getD i 0 /
          ((negList (o1 ++ o2) (o1 ++ o2) τ ε).getD i 0 + ε) := by
    intro i hi
    rw [ratioList,
      getD_zipWith _ _ _ 0 0 0 i (by rw [hPlen]; exact hi) (by rw [hNlen]; exact hi)]
  have hMlen : ((ratioList o1 o2 o1 o2 τ ε).map Real.log).length = 2 * o1.length := by
    rw [List.length_map, hRlen]
  rw [nt_xent_loss, nt_xent_loss_dist, nt_xent_claim,
    sum_eq_range_getD ((ratioList o1 o2 o1 o2 τ ε).map Real.log), hMlen,
    Finset.sum_neg_distrib, neg_div]
  have hsum : ∑ i ∈ Finset.range (2 * o1.length),
      ((ratioList o1 o2 o1 o2 τ ε).map Real.log).getD i 0 =
      ∑ i ∈ Finset.range (2 * o1.length),
        Real.log
          (Real.exp (dot (o1.getD (i % o1.length) [])
                (o2.getD (i % o1.length) []) / τ) /
            (max ((∑ j ∈ Finset.range (2 * o1.length),
                  Real.exp (dot ((o1 ++ o2).getD i [])
                      ((o1 ++ o2).getD j []) / τ)) -
                Real.exp (1 / τ)) ε + ε)) := by
    refine Finset.sum_congr rfl ?_
    intro i hi
    have hi2 : i < 2 * o1.length := Finset.mem_range.mp hi
    rw [getD_map_log _ _ (by rw [hRlen]; exact hi2), hRatio i hi2, hPos i hi2,
      hNeg i hi2]
  rw [hsum]
  push_cast
  ring

theorem nt_xent_matches_claim_witness :
    ([[(1 : ℝ), 0]] : List (List ℝ)).length = ([[0, 1]] : List (List ℝ)).length ∧
      nt_xent_loss [[(1 : ℝ), 0]] [[0, 1]] 1 1 =
        nt_xent_claim [[(1 : ℝ), 0]] [[0, 1]] 1 1 :=
  ⟨rfl, nt_xent_matches_claim [[(1 : ℝ), 0]] [[0, 1]] 1 1 rfl⟩

/-- C2: shared_step computes the loss with the literal temperature 0.5 and not
with the configured field: its value is nt_xent_loss at temperature 0.5, and it
is unchanged under any modification of the stored temperature. -/
theorem shared_step_uses_fixed_temperature (s : SimCLRState) (t : ℝ)
    (features_1 features_2 : List (List ℝ)) :
    shared_step s features_1 features_2 =
        nt_xent_loss features_1 features_2 (0.5 : ℝ) defaultEps ∧
      shared_step { s with temperature := t } features_1 features_2 =
        shared_step s features_1 features_2 :=
  ⟨rfl, rfl⟩

/-- C4: with a single worker the synchronizer is an identity: forward returns
the lone gathered tensor unchanged, backward returns the lone gradient
unchanged, and the loss computed from the gathered pools equals the purely
local nt_xent_loss. -/
theorem sync_single_worker_identity (t g out_1 out_2 : List (List ℝ)) (τ ε : ℝ) :
    syncFunctionForward [t] = t ∧
      syncFunctionBackward 0 g.length [g] = g ∧
      nt_xent_loss_dist out_1 out_2 (syncFunctionForward [out_1])
          (syncFunctionForward [out_2]) τ ε =
        nt_xent_loss out_1 out_2 τ ε := by
  refine ⟨?_, ?_, ?_⟩
  · simp [syncFunctionForward]
  · simp [syncFunctionBackward, allReduceSum]
  · simp [syncFunctionForward, nt_xent_loss]

/-- C6: the schedule step counts produced by configure_optimizers on a freshly
constructed module are (num_samples // global_batch_size) * warmup_epochs and
(num_samples // global_batch_size) * max_epochs, with
global_batch_size = num_nodes * gpus * batch_size when gpus > 0 (else
batch_size), consulted per optimization step with frequency 1. -/
theorem schedule_step_counts (ns bs gpus nn we me : ℕ) (t wd : ℝ) (ex : Bool) :
    (configure_optimizers_schedule (init ns bs gpus nn we me t wd ex)).warmup_steps =
        ns / (if 0 < gpus then nn * gpus * bs else bs) * we ∧
      (configure_optimizers_schedule (init ns bs gpus nn we me t wd ex)).total_steps =
        ns / (if 0 < gpus then nn * gpus * bs else bs) * me ∧
      (configure_optimizers_schedule (init ns bs gpus nn we me t wd ex)).interval =
        "step" ∧
      (configure_optimizers_schedule (init ns bs gpus nn we me t wd ex)).frequency = 1 :=
  ⟨rfl, rfl, rfl, rfl⟩

/-- C7: with at least one accumulated loss, on_train_epoch_end logs the
arithmetic mean of the accumulated losses and leaves the accumulator empty. -/
theorem epoch_end_logs_mean_and_resets (s : SimCLRState) (h : s.train_loss ≠ []) :
    ∃ s2, on_train_epoch_end s =
        some (s.train_loss.sum / s.train_loss.length, s2) ∧ s2.train_loss = [] := by
  have hlen : ¬ s.train_loss.length = 0 := by
    simpa [List.length_eq_zero] using h
  exact ⟨{ s with train_loss := [] }, by simp [on_train_epoch_end, hlen], rfl⟩

theorem epoch_end_logs_mean_and_resets_witness :
    sampleState.train_loss ≠ [] ∧
      ∃ s2, on_train_epoch_end sampleState =
          some (sampleState.train_loss.sum / sampleState.train_loss.length, s2) ∧
        s2.train_loss = [] := by
  have h : sampleState.train_loss ≠ [] := by
    simp [sampleState, training_step_accumulate, init]
  exact ⟨h, epoch_end_logs_mean_and_resets sampleState h⟩

/-- C10: when the accumulator is empty, on_train_epoch_end divides by zero and
fails (returns none) instead of logging a value. -/
theorem epoch_end_empty_accumulator_fails (s : SimCLRState)
    (h : s.train_loss = []) : on_train_epoch_end s = none := by
  simp [on_train_epoch_end, h]

theorem epoch_end_empty_accumulator_fails_witness :
    (init 16 32 1 1 10 100 1 0 false).train_loss = [] ∧
      on_train_epoch_end (init 16 32 1 1 10 100 1 0 false) = none :=
  ⟨rfl, epoch_end_empty_accumulator_fails _ rfl⟩

/-- C8 counterexample: construction with temperature 0 (a non-positive value)
does not fail; __init__ returns a state storing that temperature. -/
theorem init_zero_temperature_not_rejected :
    (init 16 32 1 1 10 100 0 0 false).temperature = 0 ∧ ((0 : ℝ) ≤ 0) :=
  ⟨rfl, le_refl 0⟩

/-- C8 amended: a zero or negative temperature is not rejected at
configuration time; __init__ performs no validation and stores the
temperature unchanged. -/
theorem init_accepts_nonpositive_temperature
    (ns bs gpus nn we me : ℕ) (t wd : ℝ) (ex : Bool) (_ht : t ≤ 0) :
    (init ns bs gpus nn we me t wd ex).temperature = t := rfl

theorem init_accepts_nonpositive_temperature_witness :
    ((-1 : ℝ) ≤ 0) ∧ (init 1 1 1 1 1 1 (-1) 0 true).temperature = -1 :=
  ⟨by norm_num,
    init_accepts_nonpositive_temperature 1 1 1 1 1 1 (-1) 0 true (by norm_num)⟩

/-- C9: with ε > 0 every clamped denominator entry satisfies neg + ε ≥ 2ε, and
every ratio handed to the logarithm is strictly positive. -/
theorem log_arguments_positive (out_1 out_2 out_1d out_2d : List (List ℝ))
    (τ ε : ℝ) (hε : 0 < ε) :
    (∀ n ∈ negList (out_1 ++ out_2) (out_1d ++ out_2d) τ ε, 2 * ε ≤ n + ε) ∧
      ∀ x ∈ ratioList out_1 out_2 out_1d out_2d τ ε, 0 < x := by
  have hneg : ∀ n ∈ negList (out_1 ++ out_2) (out_1d ++ out_2d) τ ε, ε ≤ n := by
    intro n hn
    rcases List.mem_map.mp hn with ⟨u, _, rfl⟩
    exact le_max_right _ _
  constructor
  · intro n hn
    have := hneg n hn
    linarith
  · intro x hx
    simp only [ratioList] at hx
    rcases exists_of_mem_zipWith hx with ⟨p, hp, n, hn, rfl⟩
    have hppos : 0 < p := by
      simp only [posList] at hp
      rcases List.mem_append.mp hp with h | h <;>
        · rcases exists_of_mem_zipWith h with ⟨u, _, v, _, rfl⟩
          exact Real.exp_pos _
    have hnpos : 0 < n + ε := by
      have := hneg n hn
      linarith
    exact div_pos hppos hnpos

theorem log_arguments_positive_witness :
    (0 : ℝ) < 1 ∧
      ((∀ n ∈ negList ([[1]] ++ [[1]]) ([[1]] ++ [[1]]) 1 1, 2 * 1 ≤ n + 1) ∧
        ∀ x ∈ ratioList [[1]] [[1]] [[1]] [[1]] 1 1, 0 < x) :=
  ⟨by norm_num, log_arguments_positive [[1]] [[1]] [[1]] [[1]] 1 1 (by norm_num)⟩

/-- C3: with exclude_bn_bias enabled, configure_optimizers yields exactly two
groups forming a partition of the named parameters -- normalization/bias
parameters receive weight-decay 0.0, all others the configured coefficient,
every parameter lands in exactly one group and the two groups together are a
permutation of the full parameter list; with the flag disabled a single group
carries every parameter and the configured decay. -/
theorem configure_optimizers_param_partition (s : SimCLRState)
    (ps : List NamedParam) :
    (s.exclude_bn_bias = true →
      ∃ gWd gZero, configure_optimizers_params s ps = [gWd, gZero] ∧
        gWd.weight_decay = s.weight_decay ∧ gZero.weight_decay = 0 ∧
        (gWd.params ++ gZero.params).Perm ps ∧
        (∀ p, p ∈ gZero.params ↔ p ∈ ps ∧ isNormOrBias p = true) ∧
        (∀ p, p ∈ gWd.params ↔ p ∈ ps ∧ isNormOrBias p = false)) ∧
    (s.exclude_bn_bias = false →
      configure_optimizers_params s ps =
        [{ params := ps, weight_decay := s.weight_decay }]) := by
  constructor
  · intro hex
    refine ⟨⟨ps.filter (not ∘ isNormOrBias), s.weight_decay⟩,
      ⟨ps.filter isNormOrBias, 0⟩, ?_, rfl, rfl, ?_, ?_, ?_⟩
    · simp [configure_optimizers_params, hex, exclude_from_wt_decay,
        List.partition_eq_filter_filter, Function.comp]
    · exact (List.perm_append_comm).trans (List.filter_append_perm _ ps)
    · intro p
      simp [List.mem_filter]
    · intro p
      simp [List.mem_filter]
  · intro hex
    simp [configure_optimizers_params, hex]

theorem configure_optimizers_param_partition_witness :
    (∃ gWd gZero,
        configure_optimizers_params sampleStateEx sampleParams = [gWd, gZero] ∧
        gWd.weight_decay = sampleStateEx.weight_decay ∧ gZero.weight_decay = 0 ∧
        (gWd.params ++ gZero.params).Perm sampleParams ∧
        (∀ p, p ∈ gZero.params ↔ p ∈ sampleParams ∧ isNormOrBias p = true) ∧
        (∀ p, p ∈ gWd.params ↔ p ∈ sampleParams ∧ isNormOrBias p = false)) ∧
      configure_optimizers_params sampleState sampleParams =
        [{ params := sampleParams, weight_decay := sampleState.weight_decay }] :=
  ⟨(configure_optimizers_param_partition sampleStateEx sampleParams).1 rfl,
    (configure_optimizers_param_partition sampleState sampleParams).2 rfl⟩

/-- Row sums against a concatenated pool split into the two sub-pools. -/
theorem rowSum_append (τ : ℝ) (u : List ℝ) (l₁ l₂ : List (List ℝ)) :
    rowSum τ u (l₁ ++ l₂) = rowSum τ u l₁ + rowSum τ u l₂ := by
  simp [rowSum]

/-- The per-pair exponentiated-similarity sum over the zipped batch equals the
row sum against each half of the pool. -/
theorem pairExpSum_zip (τ : ℝ) (u : List ℝ) :
    ∀ (o1 o2 : List (List ℝ)), o1.length = o2.length →
      pairExpSum τ u (o1.zip o2) = rowSum τ u o1 + rowSum τ u o2
  | [], [], _ => by simp [pairExpSum, rowSum]
  | [], _ :: _, h => by simp at h
  | _ :: _, [], h => by simp at h
  | a :: o1, b :: o2, h => by
    have h0 : o1.length = o2.length := by simpa using h
    have ih := pairExpSum_zip τ u o1 o2 h0
    simp only [List.zip_cons_cons, pairExpSum, List.map_cons, List.sum_cons,
      rowSum, simEntry] at ih ⊢
    rw [ih]
    ring

/-- The non-distributed nt_xent_loss as a function of the zipped batch of
positive pairs. -/
theorem nt_xent_loss_eq_lossOfPairs (o1 o2 : List (List ℝ)) (τ ε : ℝ)
    (h : o1.length = o2.length) :
    nt_xent_loss o1 o2 τ ε = lossOfPairs τ ε (o1.zip o2) := by
  have h1 : (o1.zip o2).map Prod.fst = o1 := List.map_fst_zip o1 o2 (le_of_eq h)
  have h2 : (o1.zip o2).map Prod.snd = o2 := List.map_snd_zip o1 o2 (le_of_eq h.symm)
  have hrow : ∀ u : List ℝ,
      max (rowSum τ u (o1 ++ o2) - row_sub τ) ε = pairNeg τ ε (o1.zip o2) u := by
    intro u
    rw [rowSum_append, pairNeg, pairExpSum_zip τ u o1 o2 h]
  have hm1 : o1.map (fun u => max (rowSum τ u (o1 ++ o2) - row_sub τ) ε) =
      (o1.zip o2).map (fun pr => pairNeg τ ε (o1.zip o2) pr.1) := by
    have step1 : o1.map (fun u => max (rowSum τ u (o1 ++ o2) - row_sub τ) ε) =
        ((o1.zip o2).map Prod.fst).map
          (fun u => max (rowSum τ u (o1 ++ o2) - row_sub τ) ε) := by
      rw [h1]
    rw [step1, List.map_map]
    refine List.map_congr_left ?_
    intro pr _
    exact hrow pr.1
  have hm2 : o2.map (fun u => max (rowSum τ u (o1 ++ o2) - row_sub τ) ε) =
      (o1.zip o2).map (fun pr => pairNeg τ ε (o1.zip o2) pr.2) := by
    have step2 : o2.map (fun u => max (rowSum τ u (o1 ++ o2) - row_sub τ) ε) =
        ((o1.zip o2).map Prod.snd).map
          (fun u => max (rowSum τ u (o1 ++ o2) - row_sub τ) ε) := by
      rw [h2]
    rw [step2, List.map_map]
    refine List.map_congr_left ?_
    intro pr _
    exact hrow pr.2
  have hNeg : negList (o1 ++ o2) (o1 ++ o2) τ ε =
      (o1.zip o2).map (fun pr => pairNeg τ ε (o1.zip o2) pr.1) ++
        (o1.zip o2).map (fun pr => pairNeg τ ε (o1.zip o2) pr.2) := by
    rw [negList, List.map_append, hm1, hm2]
  have hPos : posList o1 o2 τ =
      (o1.zip o2).map (fun pr => Real.exp (dot pr.1 pr.2 / τ)) ++
        (o1.zip o2).map (fun pr => Real.exp (dot pr.1 pr.2 / τ)) := by
    simp only [posList, zipWith_eq_zip_map]
  have hLog : (ratioList o1 o2 o1 o2 τ ε).map Real.log =
      (o1.zip o2).map
          (fun pr => Real.log (Real.exp (dot pr.1 pr.2 / τ) /
            (pairNeg τ ε (o1.zip o2) pr.1 + ε))) ++
        (o1.zip o2).map
          (fun pr => Real.log (Real.exp (dot pr.1 pr.2 / τ) /
            (pairNeg τ ε (o1.zip o2) pr.2 + ε))) := by
    rw [ratioList, hPos, hNeg, List.map_zipWith,
      List.zipWith_append _ _ _ _ _ (by rw [List.length_map, List.length_map]),
      List.zipWith_map, List.zipWith_map, List.zipWith_same, List.zipWith_same]
  have hlq : ((ratioList o1 o2 o1 o2 τ ε).map Real.log).length =
      2 * (o1.zip o2).length := by
    rw [hLog, List.length_append, List.length_map, List.length_map]
    omega
  rw [nt_xent_loss, nt_xent_loss_dist, lossOfPairs, hlq, hLog, List.sum_append,
    ← List.sum_map_add]
  have hpt : ((o1.zip o2).map
      (fun pr =>
        Real.log (Real.exp (dot pr.1 pr.2 / τ) / (pairNeg τ ε (o1.zip o2) pr.1 + ε)) +
          Real.log (Real.exp (dot pr.1 pr.2 / τ) /
            (pairNeg τ ε (o1.zip o2) pr.2 + ε)))) =
      (o1.zip o2).map (pairTerm τ ε (o1.zip o2)) := rfl
  rw [hpt]
  push_cast
  ring

/-- The pairs-view loss only depends on the multiset of positive pairs. -/
theorem lossOfPairs_perm (τ ε : ℝ) {q q2 : List (List ℝ × List ℝ)}
    (hp : q.Perm q2) : lossOfPairs τ ε q = lossOfPairs τ ε q2 := by
  have hS : ∀ x, pairExpSum τ x q = pairExpSum τ x q2 := by
    intro x
    exact List.Perm.sum_eq (List.Perm.map _ hp)
  have hterm : pairTerm τ ε q = pairTerm τ ε q2 := by
    funext pr
    rw [pairTerm, pairTerm, pairNeg, pairNeg, pairNeg, pairNeg, hS, hS]
  rw [lossOfPairs, lossOfPairs, hterm,
    List.Perm.sum_eq (List.Perm.map _ hp), List.Perm.length_eq hp]

/-- C5: the NT-Xent loss is invariant under a simultaneous permutation of the
rows of both batches: whenever the zipped batches are permutations of each
other, the losses agree. -/
theorem nt_xent_perm_invariant (o1 o2 p1 p2 : List (List ℝ)) (τ ε : ℝ)
    (h : o1.length = o2.length) (hp : p1.length = p2.length)
    (hperm : (p1.zip p2).Perm (o1.zip o2)) :
    nt_xent_loss p1 p2 τ ε = nt_xent_loss o1 o2 τ ε := by
  rw [nt_xent_loss_eq_lossOfPairs p1 p2 τ ε hp,
    nt_xent_loss_eq_lossOfPairs o1 o2 τ ε h]
  exact lossOfPairs_perm τ ε hperm

theorem nt_xent_perm_invariant_witness :
    nt_xent_loss [[(0 : ℝ), 1], [1, 0]] [[(1 : ℝ), 0], [0, 1]] 1 1 =
      nt_xent_loss [[(1 : ℝ), 0], [0, 1]] [[(0 : ℝ), 1], [1, 0]] 1 1 :=
  nt_xent_perm_invariant [[(1 : ℝ), 0], [0, 1]] [[(0 : ℝ), 1], [1, 0]]
    [[(0 : ℝ), 1], [1, 0]] [[(1 : ℝ), 0], [0, 1]] 1 1 rfl rfl
    (List.Perm.swap _ _ _)

end SimCLRModel
